import Mathlib

/-!
Verification development for the msbuild documentation tooling
(manpage assembly and normalization pipeline).

Shallow embedding of three Python tools:
  documentation/manpages/tool/remove-metadata-and-embed-includes.py
  documentation/manpages/tool/handle-missing-name.py
  documentation/manpages/tool/man-pandoc-filter.py
  toolset/Documentation/manpages/tool/man-pandoc-filter.py  (legacy profile)

Python strings are modelled as Lean String values, with all operations
implemented explicitly over the underlying character list (String.data),
mirroring the Python semantics on the ASCII data these tools process.
The POSIX path functions of os.path are embedded by their documented
semantics; os.linesep is the POSIX newline.  File I/O is modelled by a
filesystem record mapping paths to line sequences.  Nontermination of
the recursive include resolution (possible only on cyclic include
graphs) is modelled by a fuel parameter counting inclusion depth; a
distinguished outOfFuel signal is separate from the fatal error
signals that model Python exceptions.
-/

/-- Python: needle in haystack, for character lists (prefix test helper). -/
def isPre : List Char → List Char → Bool
  | [], _ => true
  | _ :: _, [] => false
  | c :: cs, d :: ds => c == d && isPre cs ds

/-- Python: membership of a substring, over character lists. -/
def hasSub (needle : List Char) : List Char → Bool
  | [] => needle.isEmpty
  | d :: ds => isPre needle (d :: ds) || hasSub needle ds

/-- Python str.startswith. -/
def pyStartsWith (pre s : String) : Bool := isPre pre.data s.data

/-- Python: sub in s (substring containment test). -/
def pyContains (sub s : String) : Bool := hasSub sub.data s.data

/-- Python str.__contains__ for a single character. -/
def pyHasChar (c : Char) (s : String) : Bool := s.data.contains c

/-- Python s[n:] for strings (drop the first n characters). -/
def pyDropStr (n : Nat) (s : String) : String := String.mk (s.data.drop n)

/-- Characters treated as whitespace by Python str.strip(). -/
def isPySpace (c : Char) : Bool :=
  c == ' ' || c == '\t' || c == '\n' || c == '\r' || c == '\x0b' || c == '\x0c'

/-- Python str.strip(): remove leading and trailing whitespace. -/
def pyStrip (s : String) : String :=
  String.mk (((s.data.dropWhile isPySpace).reverse.dropWhile isPySpace).reverse)

/-- Python str.strip(chars) specialized to stripping a given single character. -/
def pyStripChar (ch : Char) (s : String) : String :=
  String.mk (((s.data.dropWhile (· == ch)).reverse.dropWhile (· == ch)).reverse)

/-- Python str.upper() on one character (ASCII, as used by these tools). -/
def pyUpperChar (c : Char) : Char :=
  if 97 ≤ c.toNat ∧ c.toNat ≤ 122 then Char.ofNat (c.toNat - 32) else c

/-- Python str.lower() on one character (ASCII, as used by these tools). -/
def pyLowerChar (c : Char) : Char :=
  if 65 ≤ c.toNat ∧ c.toNat ≤ 90 then Char.ofNat (c.toNat + 32) else c

/-- Python str.upper(). -/
def pyUpper (s : String) : String := String.mk (s.data.map pyUpperChar)

/-- Python str.lower(). -/
def pyLower (s : String) : String := String.mk (s.data.map pyLowerChar)

/-- Python sep.join(parts). -/
def pyJoin (sep : String) : List String → String
  | [] => ""
  | [x] => x
  | x :: y :: xs => x ++ sep ++ pyJoin sep (y :: xs)

/-- Python str.replace(' ', '-') as used on command names. -/
def replaceSpaceHyphen (s : String) : String :=
  String.mk (s.data.map (fun c => if c == ' ' then '-' else c))

/-- os.linesep on the POSIX systems this tool targets. -/
def pyLinesep : String := "\n"

/-- The front-matter delimiter line compared against in the resolver,
three hyphens followed by os.linesep. -/
def frontDelim : String := "---" ++ pyLinesep

/- ### POSIX path functions (os.path), by their documented semantics -/

/-- os.path.dirname for POSIX paths: everything up to the last slash,
with trailing slashes stripped unless the result is all slashes. -/
def pyDirname (p : String) : String :=
  let headRev := p.data.reverse.dropWhile (fun c => c != '/')
  if headRev.isEmpty then ""
  else if headRev.all (fun c => c == '/') then String.mk headRev.reverse
  else String.mk ((headRev.dropWhile (fun c => c == '/')).reverse)

/-- os.path.join for POSIX paths, two arguments. -/
def pyJoinPath (a b : String) : String :=
  if b.data.head? == some '/' then b
  else if a == "" || a.data.getLast? == some '/' then a ++ b
  else a ++ "/" ++ b

/-- Component processing of posixpath.normpath for an absolute path:
empty and dot components vanish, dot-dot pops the previous component
(and vanishes at the root). -/
def normComps : List String → List String → List String
  | acc, [] => acc.reverse
  | acc, c :: cs =>
    if c == "" || c == "." then normComps acc cs
    else if c == ".." then
      match acc with
      | [] => normComps [] cs
      | top :: rest => if top == ".." then normComps (c :: acc) cs else normComps rest cs
    else normComps (c :: acc) cs

/-- Python str.split(sep) for a single-character separator, accumulator
for the current piece held in reverse. -/
def splitCharAux (sep : Char) (cur : List Char) : List Char → List String
  | [] => [String.mk cur.reverse]
  | c :: cs =>
    if c == sep then String.mk cur.reverse :: splitCharAux sep [] cs
    else splitCharAux sep (c :: cur) cs

/-- Python str.split(sep) for a single-character separator. -/
def pySplitChar (sep : Char) (s : String) : List String := splitCharAux sep [] s.data

/-- os.path.abspath: for the absolute paths these tools are invoked with,
this is posixpath.normpath; relative paths would be joined to the ambient
working directory first and are left untouched here (never exercised). -/
def pyAbspath (p : String) : String :=
  if p.data.head? == some '/' then
    "/" ++ pyJoin "/" (normComps [] (pySplitChar '/' p))
  else p

/- ### Filesystem model and error signals -/

/-- The filesystem as the resolver sees it: a partial map from path
strings to file contents (as produced by readlines: a list of lines),
plus a directory-existence predicate for the .git marker probe. -/
structure FS where
  files : String → Option (List String)
  isDir : String → Bool

/-- Overwrite (or create) one file. -/
def FS.setFile (fs : FS) (p : String) (ls : List String) : FS :=
  { fs with files := fun q => if q = p then some ls else fs.files q }

/-- os.replace(src, dst): atomically rename src over dst. -/
def FS.replaceFile (fs : FS) (src dst : String) : FS :=
  { fs with files := fun q =>
      if q = src then none
      else if q = dst then fs.files src
      else fs.files q }

/-- Failure signals of the resolver: outOfFuel models nontermination of
the unbounded recursion (cyclic includes); indexError the lines[0]
access on an empty document; assertUnparsable the parse assertion;
assertAtRoot the git-root search assertion; fileNotFound a failing open. -/
inductive RErr where
  | outOfFuel
  | indexError
  | assertUnparsable (line : String)
  | assertAtRoot
  | fileNotFound (path : String)
deriving DecidableEq, Repr

/- ### The include resolver: remove-metadata-and-embed-includes.py -/

/-- The upward search loop of git_root: starting from a directory, climb
until a directory containing a .git directory is found; the assertion
fires when the parent reaches the filesystem root. -/
def gitRootLoop (fs : FS) : Nat → String → Except RErr String
  | 0, _ => .error .outOfFuel
  | n + 1, dirname =>
    if fs.isDir (pyJoinPath dirname ".git") then .ok dirname
    else
      let d := pyAbspath (pyJoinPath dirname "..")
      if d = "/" then .error .assertAtRoot else gitRootLoop fs n d

/-- git_root(file): the nearest ancestor of the file holding a .git
directory. -/
def git_root (fs : FS) (fuel : Nat) (file : String) : Except RErr String :=
  gitRootLoop fs fuel (pyDirname file)

/-- The fixed inclusion-directive pattern, attempted at one start
position: the literal marker, optional spaces, a bracketed nonempty
label without closing bracket characters, optional spaces, and a
parenthesized nonempty path without closing parenthesis characters;
returns the captured path.  The greedy character classes are
deterministic because each excludes exactly its closing delimiter. -/
def matchIncludeAt (l : List Char) : Option (List Char) :=
  if isPre "[!INCLUDE".data l then
    let r1 := (l.drop 9).dropWhile (· == ' ')
    match r1 with
    | '[' :: r2 =>
      let label := r2.takeWhile (· != ']')
      if label.isEmpty then none else
      match r2.dropWhile (· != ']') with
      | ']' :: r3 =>
        match r3.dropWhile (· == ' ') with
        | '(' :: r5 =>
          let path := r5.takeWhile (· != ')')
          if path.isEmpty then none else
          match r5.dropWhile (· != ')') with
          | ')' :: _ => some path
          | _ => none
        | _ => none
      | _ => none
    | _ => none
  else none

/-- re.search of the inclusion pattern: the leftmost position where the
whole pattern matches, returning the captured path. -/
def searchIncAux : List Char → Option (List Char)
  | [] => none
  | d :: ds =>
    match matchIncludeAt (d :: ds) with
    | some p => some p
    | none => searchIncAux ds

/-- The captured inclusion path of a line, when the pattern matches. -/
def searchInclude (line : String) : Option String :=
  (searchIncAux line.data).map String.mk

/-- The marker containment test guarding the pattern match. -/
def containsMarker (line : String) : Bool := pyContains "[!INCLUDE" line

/-- Front-matter removal: the first line (already consumed by the
caller) was the delimiter; everything up to and including the next
delimiter line goes; with no closing delimiter the loop ends without
its break and the lines stay as they are. -/
def dropMeta (ls : List String) : List String :=
  match ls.findIdx? (· == frontDelim) with
  | some i => ls.drop (i + 1)
  | none => ls

/-- One line-scanning pass of read_lines_document_file, parameterized by
the resolver used for included files (the recursive call) and the fuel
handed to git_root.  A line containing the marker must match the
pattern (else the parse assertion fires); the captured path resolves
against the repository root for tilde-slash paths and against the
current directory otherwise; the included file is read and recursively
resolved in place; all other lines pass through unchanged. -/
def procLines (fs : FS) (resolve : String → List String → Except RErr (List String))
    (gfuel : Nat) (this_file : String) : List String → Except RErr (List String)
  | [] => .ok []
  | line :: ls =>
    if containsMarker line then
      match searchInclude line with
      | none => .error (.assertUnparsable line)
      | some rel => do
        let file_to_include ←
          if pyStartsWith "~/" rel then
            (git_root fs gfuel this_file).map
              (fun root => pyJoinPath (root ++ "/") (pyDropStr 2 rel))
          else .ok (pyJoinPath (pyDirname this_file) rel)
        match fs.files file_to_include with
        | none => .error (.fileNotFound file_to_include)
        | some inc => do
          let sub ← resolve file_to_include inc
          let rest ← procLines fs resolve gfuel this_file ls
          .ok (sub ++ rest)
    else do
      let rest ← procLines fs resolve gfuel this_file ls
      .ok (line :: rest)

/-- read_lines_document_file(this_file, original_lines): strip an
optional leading front-matter block, then scan the remaining lines,
splicing recursively resolved inclusions in place.  The first-line
probe of the front-matter test raises an index error on an empty
document.  Fuel bounds the inclusion nesting depth. -/
def read_lines_document_file (fs : FS) : Nat → String → List String → Except RErr (List String)
  | 0, _, _ => .error .outOfFuel
  | n + 1, this_file, original_lines =>
    match original_lines with
    | [] => .error .indexError
    | l0 :: rest =>
      procLines fs (read_lines_document_file fs n) (n + 1) this_file
        (if l0 = frontDelim then dropMeta rest else l0 :: rest)

/-- The lines the per-line scan of read_lines_document_file actually
runs over, after the optional-metadata step has been applied to the
document: the document itself when it does not open with the
delimiter, and its dropMeta remainder when it does (the empty
document never reaches the scan; the index error fires first). -/
def scannedOf : List String → List String
  | [] => []
  | l0 :: rest => if l0 = frontDelim then dropMeta rest else l0 :: rest

/-- main(args) of the resolver tool: read the file, resolve it, write
the result to a temporary sibling and atomically rename it over the
original.  A raised exception propagates before the temporary is
created, leaving the filesystem untouched.  Returns the outcome paired
with the final filesystem. -/
def resolver_main (fs : FS) (fuel : Nat) (filename : String) : Except RErr Unit × FS :=
  match fs.files filename with
  | none => (.error (.fileNotFound filename), fs)
  | some ls =>
    match read_lines_document_file fs fuel filename ls with
    | .error e => (.error e, fs)
    | .ok out => (.ok (), (fs.setFile (filename ++ ".tmp") out).replaceFile
        (filename ++ ".tmp") filename)

/- ### The name-section normalizer: handle-missing-name.py -/

/-- Failure signal of handle_missing_name: the lines[0] access after
blank-line trimming raises an index error on an empty document. -/
inductive HErr where
  | indexError
deriving DecidableEq, Repr

/-- os.path.basename for POSIX paths: the part after the last slash. -/
def pyBasename (p : String) : String :=
  String.mk ((p.data.reverse.takeWhile (fun c => c != '/')).reverse)

/-- os.path.splitext applied to a basename, keeping the root: split at
the last dot unless every character before it is a dot. -/
def pySplitextRoot (name : String) : String :=
  let l := name.data
  match l.reverse.findIdx? (· == '.') with
  | none => name
  | some j =>
    let dotIdx := l.length - 1 - j
    if (l.take dotIdx).all (· == '.') then name else String.mk (l.take dotIdx)

/-- The leading-blank-line trim of handle_missing_name: drop up to the
first line with nonempty stripped text; with no such line the sequence
stays as it is. -/
def trimLeadingBlank (ls : List String) : List String :=
  match ls.findIdx? (fun l => !(pyStrip l == "")) with
  | some i => ls.drop i
  | none => ls

/-- handle_missing_name(this_file, original_lines): when a line whose
stripped text is the Name heading already exists, warn and return the
input unchanged; otherwise skip leading blank lines and synthesize the
Name section, the command-name line built from the basename without
extension and the first remaining line stripped of whitespace and then
of hash characters, and the Description heading, followed by the
remaining lines. -/
def handle_missing_name (this_file : String) (original_lines : List String) :
    Except HErr (List String) :=
  if original_lines.any (fun l => pyStrip l == "# Name") then
    .ok original_lines
  else
    match trimLeadingBlank original_lines with
    | [] => .error .indexError
    | l0 :: restLines =>
      let command_name := pySplitextRoot (pyBasename this_file)
      .ok (["# Name" ++ pyLinesep, pyLinesep,
            command_name ++ " - " ++ pyStripChar '#' (pyStrip l0) ++ pyLinesep,
            pyLinesep, "# Description" ++ pyLinesep, pyLinesep] ++ restLines)

/- ### The pandoc filter chains: man-pandoc-filter.py (both profiles) -/

/-- Pandoc attributes: identifier, classes, key-value pairs. -/
def Attr : Type := String × List String × List (String × String)

instance : DecidableEq Attr := by unfold Attr; infer_instance

/-- The inline document nodes these filters consume: literal text,
inline code with attributes, a space, and links carrying a label of
inline content and a target.  This is the documented tree-node shape
the external pandoc parser produces for these documents. -/
inductive Inline where
  | Str : String → Inline
  | Code : Attr → String → Inline
  | Space : Inline
  | Link : Attr → List Inline → String × String → Inline

/-- The block-level document nodes: headers with level, attributes and
inline content, and paragraphs of inline content. -/
inductive Block where
  | Header : Nat → Attr → List Inline → Block
  | Para : List Inline → Block

/-- Failure signals of the filter passes, each modelling the Python
exception raised on that input shape: the deliberate assertion of
fail_on_includes; index and key errors from the first-element probes
of paragraph content; the demotion pass indexing into or producing a
malformed header (which crashes this pass or the following one in the
same chain run); and the reference-flattening errors of the legacy
profile. -/
inductive FErr where
  | foundInclude
  | paraIndexError
  | paraKeyError
  | demoteMalformed
  | refIndexError
  | refTypeError
deriving DecidableEq, Repr

/-- fail_on_includes on one Paragraph content list: probing the first
element raises an index error on empty content and a key error on a
content-free Space element; a first element whose content field is the
literal marker string trips the assertion; code and link first
elements carry list content, never equal to a string. -/
def checkParaHead : List Inline → Except FErr Unit
  | [] => .error .paraIndexError
  | .Space :: _ => .error .paraKeyError
  | .Str s :: _ => if s = "[!INCLUDE" then .error .foundInclude else .ok ()
  | .Code _ _ :: _ => .ok ()
  | .Link _ _ _ :: _ => .ok ()

/-- fail_on_includes as a block action. -/
def fail_on_includes : Block → Except FErr Unit
  | .Para cs => checkParaHead cs
  | .Header _ _ _ => .ok ()

/-- The walk of the fail_on_includes pass over the document. -/
def walkFail : List Block → Except FErr (List Block)
  | [] => .ok []
  | b :: bs => do
    fail_on_includes b
    let rest ← walkFail bs
    .ok (b :: rest)

/-- The Str elements of a content list, in order (the elements whose
tag is Str, as collected by the header-text comprehension). -/
def strParts : List Inline → List String
  | [] => []
  | .Str s :: cs => s :: strParts cs
  | _ :: cs => strParts cs

/-- The flattened, lowercased header text: the space-join of the Str
elements, lowercased. -/
def headerText (cs : List Inline) : String := pyLower (pyJoin " " (strParts cs))

/-- The in-place uppercasing of Str elements done by the promotion
pass. -/
def upperStr : Inline → Inline
  | .Str s => .Str (pyUpper s)
  | i => i

/-- The recognized section names of the current (extended) profile. -/
def extendedSections : List String :=
  ["name", "synopsis", "description", "arguments", "options", "examples",
   "environment variables", "see also"]

/-- The recognized section names of the legacy profile. -/
def legacySections : List String :=
  ["name", "synopsis", "description", "options", "examples",
   "environment variables"]

/-- promote_and_capitalize_sections on one block: a header whose
flattened lowercased text is a recognized section name has its Str
elements uppercased and its level forced to one. -/
def promote_and_capitalize (profile : List String) : Block → Block
  | .Header lv attr cs =>
    if profile.contains (headerText cs) then .Header 1 attr (cs.map upperStr)
    else .Header lv attr cs
  | b => b

/-- The walk of the promotion pass over the document. -/
def walkPromote (profile : List String) (bs : List Block) : List Block :=
  bs.map (promote_and_capitalize profile)

/-- demote_net_core_1_2 on one block: a header whose identifier starts
with the version-marker prefix is rewritten to level two with content
taken from the second content field of its first inline element.  Only
a link first element yields well-formed content (its label); an empty
content list or a space first element raises at once, and a text or
code first element produces a malformed header over which the same
chain run crashes while walking a later pass. -/
def demote_net_core (b : Block) : Except FErr Block :=
  match b with
  | .Header lv (id, cls, kvs) cs =>
    if pyStartsWith "net-core-" id then
      match cs with
      | .Link _ label _ :: _ => .ok (.Header 2 (id, cls, kvs) label)
      | _ => .error .demoteMalformed
    else .ok (.Header lv (id, cls, kvs) cs)
  | b => .ok b

/-- The walk of the demotion pass over the document. -/
def walkDemote : List Block → Except FErr (List Block)
  | [] => .ok []
  | b :: bs => do
    let b' ← demote_net_core b
    let rest ← walkDemote bs
    .ok (b' :: rest)

/-- The paragraph rewrite of fix_space_in_command_names: directly
contained code spans whose text starts with the command prefix become
plain text with spaces replaced by hyphens. -/
def fixInline : Inline → Inline
  | .Code attr s =>
    if pyStartsWith "dotnet " s then .Str (replaceSpaceHyphen s) else .Code attr s
  | i => i

/-- One step of the stateful fix_space_in_command_names pass: a header
sets the flag to whether its text is the Name heading; a paragraph is
rewritten exactly when the flag is set. -/
def fixSpaceStep (flag : Bool) : Block → Bool × Block
  | .Header lv attr cs => (headerText cs == "name", .Header lv attr cs)
  | .Para cs => (flag, if flag then .Para (cs.map fixInline) else .Para cs)

/-- The walk of the stateful pass, threading the flag through the
blocks in document order (the flag starts unset in each run). -/
def walkFixSpace (flag : Bool) : List Block → List Block
  | [] => []
  | b :: bs =>
    let s := fixSpaceStep flag b
    s.2 :: walkFixSpace s.1 bs

/-- The admonition marker strings stripped by remove_markers. -/
def isAdmonition (s : String) : Bool := s == "[!NOTE]" || s == "[!IMPORTANT]"

mutual

/-- remove_markers on one inline element, recursing through link labels
as the walk does: a Str equal to an admonition marker becomes the
empty Str. -/
def remInline : Inline → Inline
  | .Str s => if isAdmonition s then .Str "" else .Str s
  | .Link attr label tgt => .Link attr (remInlines label) tgt
  | i => i

/-- remove_markers over a content list. -/
def remInlines : List Inline → List Inline
  | [] => []
  | i :: is => remInline i :: remInlines is

end

/-- The walk of remove_markers over one block. -/
def remBlock : Block → Block
  | .Header lv attr cs => .Header lv attr (remInlines cs)
  | .Para cs => .Para (remInlines cs)

/-- The walk of remove_markers over the document. -/
def walkRemove (bs : List Block) : List Block := bs.map remBlock

/-- The current profile filter chain of man-pandoc-filter.py: the five
passes in their registration order, each a full walk over the
document. -/
def filterChain (bs : List Block) : Except FErr (List Block) := do
  let b1 ← walkFail bs
  let b2 := walkPromote extendedSections b1
  let b3 ← walkDemote b2
  let b4 := walkFixSpace false b3
  .ok (walkRemove b4)

/-- remove_includes of the legacy profile: a paragraph whose first
element carries the literal marker string is replaced by a paragraph
holding one empty Str (the first-element probe raising as in the
other profile); everything else passes through. -/
def remove_includes (b : Block) : Except FErr Block :=
  match b with
  | .Para cs =>
    match cs with
    | [] => .error .paraIndexError
    | .Space :: _ => .error .paraKeyError
    | .Str s :: rest =>
      if s = "[!INCLUDE" then .ok (.Para [.Str ""]) else .ok (.Para (.Str s :: rest))
    | cs => .ok (.Para cs)
  | b => .ok b

/-- The walk of the legacy remove_includes pass. -/
def walkRemoveIncludes : List Block → Except FErr (List Block)
  | [] => .ok []
  | b :: bs => do
    let b' ← remove_includes b
    let rest ← walkRemoveIncludes bs
    .ok (b' :: rest)

/-- The join of the label texts in remove_references: elements without
a content field are skipped, and an element whose content field is not
a string (code, links) makes the space-join raise a type error. -/
def refJoinParts : List Inline → Except FErr (List String)
  | [] => .ok []
  | .Str s :: r => do .ok (s :: (← refJoinParts r))
  | .Space :: r => refJoinParts r
  | .Code _ _ :: _ => .error .refTypeError
  | .Link _ _ _ :: _ => .error .refTypeError

/-- remove_references of the legacy profile on one inline: every link
is replaced, by its first label element when that is a code span and
otherwise by a Str joining the label texts; the first-element probe
raises on an empty label. -/
def remove_references (i : Inline) : Except FErr Inline :=
  match i with
  | .Link _ label _ =>
    match label with
    | [] => .error .refIndexError
    | .Code cattr ctext :: _ => .ok (.Code cattr ctext)
    | _ => do .ok (.Str (pyJoin " " (← refJoinParts label)))
  | i => .ok i

/-- The walk of the legacy remove_references pass over a content list
(replacements carry no further link content, so no recursion
remains). -/
def walkRefsInlines : List Inline → Except FErr (List Inline)
  | [] => .ok []
  | i :: is => do
    let i' ← remove_references i
    let rest ← walkRefsInlines is
    .ok (i' :: rest)

/-- The walk of the legacy remove_references pass over the document. -/
def walkRefs : List Block → Except FErr (List Block)
  | [] => .ok []
  | .Header lv attr cs :: bs => do
    let cs' ← walkRefsInlines cs
    let rest ← walkRefs bs
    .ok (.Header lv attr cs' :: rest)
  | .Para cs :: bs => do
    let cs' ← walkRefsInlines cs
    let rest ← walkRefs bs
    .ok (.Para cs' :: rest)

/-- The legacy profile filter chain of the toolset copy of
man-pandoc-filter.py: its four passes in registration order. -/
def legacyChain (bs : List Block) : Except FErr (List Block) := do
  let b1 ← walkRemoveIncludes bs
  let b2 := walkPromote legacySections b1
  let b3 ← walkDemote b2
  walkRefs b3

/- ### Concrete instances used by witnesses and counterexamples -/

/-- A baseline empty filesystem used by concrete evaluations. -/
def fs0 : FS := { files := fun _ => none, isDir := fun _ => false }

/-- A document whose malformed inclusion line sits inside the
front-matter block. -/
def fmHiddenDoc : List String := ["---\n", "[!INCLUDE bad\n", "---\n", "ok\n"]

/-- A filesystem holding the front-matter-hidden malformed document. -/
def fsFmHidden : FS := fs0.setFile "/doc.md" fmHiddenDoc

/-- A three-file nested-inclusion filesystem: the root includes file A,
which includes file B. -/
def fsNested : FS :=
  ((fs0.setFile "/d/R.md" ["r1\n", "[!INCLUDE [a](A.md)]\n", "r2\n"]).setFile
    "/d/A.md" ["a1\n", "[!INCLUDE [b](B.md)]\n", "a2\n"]).setFile
    "/d/B.md" ["b1\n", "b2\n"]

/-- A nested-inclusion filesystem whose root document opens with a
well-formed front-matter block. -/
def fsNestedFM : FS :=
  ((fs0.setFile "/d/R.md"
      ["---\n", "m\n", "---\n", "r1\n", "[!INCLUDE [a](A.md)]\n"]).setFile
    "/d/A.md" ["a1\n", "[!INCLUDE [b](B.md)]\n", "a2\n"]).setFile
    "/d/B.md" ["b1\n"]

/-- A repository filesystem with the .git marker at the repository root
and a document using a repository-rooted inclusion path. -/
def fsRepo : FS :=
  { files := fun p =>
      if p = "/repo/docs/a.md" then some ["[!INCLUDE [x](~/shared/b.md)]\n"]
      else if p = "/repo/shared/b.md" then some ["b\n"] else none
    isDir := fun d => d == "/repo/.git" }

/-- A version-marked header whose first content element is a link: the
shape the demotion pass rewrites into well-formed output. -/
def hdrNetCore : Block :=
  .Header 3 ("net-core-21", [], []) [.Link ("", [], []) [.Str "ab"] ("", "")]

/-- The demoted form of hdrNetCore, on which a second demotion pass
crashes. -/
def hdrNetCoreDemoted : Block := .Header 2 ("net-core-21", [], []) [.Str "ab"]

/-- A small already-normalized document used to witness chain
idempotence. -/
def doc5In : List Block :=
  [.Header 2 ("opts", [], []) [.Str "Options"], .Para [.Str "hello"]]

/-- The filter-chain output of doc5In. -/
def doc5Out : List Block :=
  [.Header 1 ("opts", [], []) [.Str "OPTIONS"], .Para [.Str "hello"]]

/-- The version-marker guard on one block: the header identifier does
not start with the version-marker prefix. -/
def headerIdOk : Block → Bool
  | .Header _ (id, _, _) _ => !(pyStartsWith "net-core-" id)
  | .Para _ => true

/- ### General lemmas: Except plumbing -/

theorem exceptBindOk {ε α β : Type} (x : Except ε α) (f : α → Except ε β) (b : β) :
    (x >>= f) = .ok b ↔ ∃ a, x = .ok a ∧ f a = .ok b := by
  cases x <;> simp [Bind.bind, Except.bind]

theorem exceptMapOk {ε α β : Type} (x : Except ε α) (g : α → β) (b : β) :
    x.map g = .ok b ↔ ∃ a, x = .ok a ∧ g a = b := by
  cases x <;> simp [Except.map]

/- ### Lemmas about the include resolver -/

theorem procLines_nil (fs : FS) (r : String → List String → Except RErr (List String))
    (g : Nat) (t : String) : procLines fs r g t [] = .ok [] := rfl

theorem procLines_cons_plain (fs : FS) (r : String → List String → Except RErr (List String))
    (g : Nat) (t : String) (line : String) (ls : List String)
    (h : containsMarker line = false) :
    procLines fs r g t (line :: ls) =
      (procLines fs r g t ls).map (fun rest => line :: rest) := by
  simp only [procLines, h, Bool.false_eq_true, if_false]
  cases procLines fs r g t ls <;> simp [Except.map, Bind.bind, Except.bind]

theorem procLines_cons_bad (fs : FS) (r : String → List String → Except RErr (List String))
    (g : Nat) (t : String) (line : String) (ls : List String)
    (hm : containsMarker line = true) (hs : searchInclude line = none) :
    procLines fs r g t (line :: ls) = .error (.assertUnparsable line) := by
  simp [procLines, hm, hs]

theorem procLines_cons_inc (fs : FS) (r : String → List String → Except RErr (List String))
    (g : Nat) (t : String) (line relp : String) (ls inc : List String)
    (hm : containsMarker line = true) (hs : searchInclude line = some relp)
    (ht : pyStartsWith "~/" relp = false)
    (hf : fs.files (pyJoinPath (pyDirname t) relp) = some inc) :
    procLines fs r g t (line :: ls) = (do
      let sub ← r (pyJoinPath (pyDirname t) relp) inc
      let rest ← procLines fs r g t ls
      .ok (sub ++ rest)) := by
  simp [procLines, hm, hs, ht, hf, Bind.bind, Except.bind]

/-- Scanning a marker-free line sequence reproduces it unchanged. -/
theorem procLines_plain (fs : FS) (r : String → List String → Except RErr (List String))
    (g : Nat) (t : String) (ls : List String)
    (h : ∀ l ∈ ls, containsMarker l = false) :
    procLines fs r g t ls = .ok ls := by
  induction ls with
  | nil => rfl
  | cons l ls ih =>
    rw [procLines_cons_plain fs r g t l ls (h l (by simp))]
    rw [ih (fun x hx => h x (by simp [hx]))]
    rfl

/-- A marker-free prefix of the scanned lines passes through in front of
whatever the rest of the scan produces. -/
theorem procLines_append_plain (fs : FS) (r : String → List String → Except RErr (List String))
    (g : Nat) (t : String) (pre ls : List String)
    (h : ∀ l ∈ pre, containsMarker l = false) :
    procLines fs r g t (pre ++ ls) =
      (procLines fs r g t ls).map (fun rest => pre ++ rest) := by
  induction pre with
  | nil =>
    simp only [List.nil_append]
    cases procLines fs r g t ls <;> simp [Except.map]
  | cons p pre ih =>
    rw [List.cons_append, procLines_cons_plain fs r g t p (pre ++ ls) (h p (by simp))]
    rw [ih (fun x hx => h x (by simp [hx]))]
    cases procLines fs r g t ls <;> simp [Except.map]

/-- Unfolding of the resolver on a nonempty document with no leading
front-matter delimiter. -/
theorem read_eq_proc (fs : FS) (n : Nat) (t : String) (lines : List String)
    (hne : lines ≠ []) (hd : lines.head? ≠ some frontDelim) :
    read_lines_document_file fs (n + 1) t lines =
      procLines fs (read_lines_document_file fs n) (n + 1) t lines := by
  match lines, hne with
  | l0 :: rest, _ =>
    have : l0 ≠ frontDelim := by simpa using hd
    simp [read_lines_document_file, this]

/-- Unfolding of the resolver on any nonempty document: it scans the
metadata-stripped line list. -/
theorem read_eq_proc_scanned (fs : FS) (n : Nat) (t : String) (lines : List String)
    (hne : lines ≠ []) :
    read_lines_document_file fs (n + 1) t lines =
      procLines fs (read_lines_document_file fs n) (n + 1) t (scannedOf lines) := by
  match lines, hne with
  | l0 :: rest, _ => rfl

/-- Round trip: a nonempty, marker-free document with no leading
front-matter delimiter resolves to itself. -/
theorem read_plain (fs : FS) (n : Nat) (t : String) (lines : List String)
    (hne : lines ≠ []) (hd : lines.head? ≠ some frontDelim)
    (h : ∀ l ∈ lines, containsMarker l = false) :
    read_lines_document_file fs (n + 1) t lines = .ok lines := by
  rw [read_eq_proc fs n t lines hne hd]
  exact procLines_plain _ _ _ _ _ h

theorem findIdx?_some_lt {α : Type} (p : α → Bool) :
    ∀ (l : List α) (s i : Nat), List.findIdx? p l s = some i → ∃ j, i = s + j ∧ j < l.length := by
  intro l
  induction l with
  | nil => intro s i h; simp [List.findIdx?] at h
  | cons x xs ih =>
    intro s i h
    rw [List.findIdx?_cons] at h
    by_cases hp : p x = true
    · rw [if_pos hp] at h
      exact ⟨0, by simpa using h.symm, by simp⟩
    · rw [if_neg hp] at h
      obtain ⟨j, hj, hlt⟩ := ih (s + 1) i h
      exact ⟨j + 1, by omega, by simp; omega⟩

theorem trimLeadingBlank_ne_nil (ls : List String) (h : ls ≠ []) :
    trimLeadingBlank ls ≠ [] := by
  unfold trimLeadingBlank
  cases hf : ls.findIdx? (fun l => !(pyStrip l == "")) with
  | none => exact h
  | some i =>
    obtain ⟨j, hj, hlt⟩ := findIdx?_some_lt _ ls 0 i hf
    intro hd
    rw [List.drop_eq_nil_iff] at hd
    omega

example : pyDirname "/repo/docs/a.md" = "/repo/docs" := by decide
example : pyAbspath (pyJoinPath "/repo/docs" "..") = "/repo" := by decide
example : searchInclude "[!INCLUDE [x](~/shared/b.md)]\n" = some "~/shared/b.md" := by decide
example : searchInclude "[!INCLUDE bad\n" = none := by decide
example : containsMarker "[!INCLUDE bad\n" = true := by decide
example : containsMarker "---\n" = false := by decide

/- ### Claim C10 -/

/-- Claim C10: the Include Resolver is partial on empty input: on the
empty line sequence the front-matter probe of the first line fails
with an out-of-bounds access instead of returning a result, so every
call carries the unstated precondition that the input is non-empty. -/
theorem c10_empty_input_index_error (fs : FS) (fuel : Nat) (t : String) :
    read_lines_document_file fs (fuel + 1) t [] = .error .indexError := rfl

/- ### Claim C6 -/

/-- Counterexample to claim C6 as stated: a marker-free document
consisting of the two front-matter delimiter lines resolves to the
empty sequence, not to the original lines. -/
theorem c6_counterexample :
    read_lines_document_file fs0 5 "/doc.md" ["---\n", "---\n"] = .ok [] ∧
      ([] : List String) ≠ ["---\n", "---\n"] := by
  exact ⟨rfl, by decide⟩

/-- Claim C6 as amended: for every marker-free document that is
non-empty and does not open with the front-matter delimiter (a leading
front-matter block is stripped, not preserved), the Include Resolver
returns exactly the original line sequence, unchanged and in order. -/
theorem c6_round_trip (fs : FS) (fuel : Nat) (t : String) (lines : List String)
    (hne : lines ≠ []) (hd : lines.head? ≠ some frontDelim)
    (h : ∀ l ∈ lines, containsMarker l = false) :
    read_lines_document_file fs (fuel + 1) t lines = .ok lines :=
  read_plain fs fuel t lines hne hd h

/-- Witness for c6_round_trip at a concrete document. -/
theorem c6_witness :
    read_lines_document_file fs0 5 "/doc.md" ["x\n", "y\n"] = .ok ["x\n", "y\n"] :=
  c6_round_trip fs0 4 "/doc.md" ["x\n", "y\n"] (by decide) (by decide) (by decide)

/- ### Claim C9 -/

/-- Counterexample to claim C9 as stated: with an unclosed front-matter
block the resolver does not discard everything after the opening
delimiter; the content line survives. -/
theorem c9_counterexample :
    read_lines_document_file fs0 5 "/doc.md" ["---\n", "hello\n"] = .ok ["hello\n"] ∧
      (["hello\n"] : List String) ≠ [] := by
  exact ⟨rfl, by decide⟩

/-- Claim C9 as amended: when the first line is the front-matter
delimiter and no closing delimiter follows, only the opening delimiter
line is discarded; the remaining lines are scanned normally (here, a
marker-free remainder is returned in full). -/
theorem c9_front_matter_unclosed (fs : FS) (fuel : Nat) (t : String) (rest : List String)
    (hnd : ∀ l ∈ rest, l ≠ frontDelim)
    (h : ∀ l ∈ rest, containsMarker l = false) :
    read_lines_document_file fs (fuel + 1) t (frontDelim :: rest) = .ok rest := by
  have hmeta : dropMeta rest = rest := by
    unfold dropMeta
    have : rest.findIdx? (· == frontDelim) = none := by
      rw [List.findIdx?_eq_none_iff]
      intro x hx
      simpa using hnd x hx
    rw [this]
  show procLines fs (read_lines_document_file fs fuel) (fuel + 1) t
      (if frontDelim = frontDelim then dropMeta rest else frontDelim :: rest) = .ok rest
  rw [if_pos rfl, hmeta]
  exact procLines_plain _ _ _ _ _ h

/-- Witness for c9_front_matter_unclosed at a concrete document. -/
theorem c9_witness :
    read_lines_document_file fs0 5 "/doc.md" ["---\n", "a\n", "b\n"] = .ok ["a\n", "b\n"] :=
  c9_front_matter_unclosed fs0 4 "/doc.md" ["a\n", "b\n"] (by decide) (by decide)

/- ### Claim C2 -/

/-- Counterexample to claim C2 as stated: a document containing a
marker line that fails the directive pattern, but inside the
front-matter block, resolves successfully, and the tool does write the
resolved output over the original file. -/
theorem c2_counterexample :
    read_lines_document_file fsFmHidden 5 "/doc.md" fmHiddenDoc = .ok ["ok\n"] ∧
      (resolver_main fsFmHidden 5 "/doc.md").1 = .ok () ∧
      (resolver_main fsFmHidden 5 "/doc.md").2.files "/doc.md" = some ["ok\n"] := by
  exact ⟨rfl, rfl, rfl⟩

/-- Claim C2 as amended: when a marker line failing the directive
pattern occurs among the scanned lines (the document after the
optional-metadata step, so outside any leading front-matter block) and
is preceded there only by marker-free lines, resolution aborts with
the parse assertion, and main leaves the filesystem unchanged: no
output file is written and the original file keeps its content. -/
theorem c2_abort_on_unparsable (fs : FS) (fuel : Nat) (t : String)
    (doc pre post : List String) (bad : String)
    (hpre : ∀ l ∈ pre, containsMarker l = false)
    (hm : containsMarker bad = true) (hs : searchInclude bad = none)
    (hdoc : scannedOf doc = pre ++ bad :: post) :
    read_lines_document_file fs (fuel + 1) t doc =
        .error (.assertUnparsable bad) ∧
      (fs.files t = some doc →
        resolver_main fs (fuel + 1) t = (.error (.assertUnparsable bad), fs)) := by
  have hne : doc ≠ [] := by
    intro h
    rw [h] at hdoc
    exact absurd hdoc.symm (by simp [scannedOf])
  have hread : read_lines_document_file fs (fuel + 1) t doc =
      .error (.assertUnparsable bad) := by
    rw [read_eq_proc_scanned fs fuel t doc hne, hdoc]
    rw [procLines_append_plain fs _ (fuel + 1) t pre (bad :: post) hpre]
    rw [procLines_cons_bad fs _ (fuel + 1) t bad post hm hs]
    rfl
  refine ⟨hread, fun hfile => ?_⟩
  simp [resolver_main, hfile, hread]

/-- Witness for c2_abort_on_unparsable at a concrete document whose
malformed marker line follows a well-formed front-matter block. -/
theorem c2_witness :
    read_lines_document_file fs0 5 "/doc.md"
        ["---\n", "t\n", "---\n", "a\n", "[!INCLUDE bad\n", "b\n"] =
      .error (.assertUnparsable "[!INCLUDE bad\n") :=
  (c2_abort_on_unparsable fs0 4 "/doc.md"
    ["---\n", "t\n", "---\n", "a\n", "[!INCLUDE bad\n", "b\n"]
    ["a\n"] ["b\n"] "[!INCLUDE bad\n"
    (by decide) (by decide) (by decide) (by decide)).1

/- ### Claim C4 -/

/-- Counterexample to claim C4 as stated: the synthesized title line
keeps the space that followed the heading marker (whitespace is
stripped before the hash characters, not after), so the claimed line
with a single space around the hyphen is not produced. -/
theorem c4_counterexample :
    handle_missing_name "foo-bar.md" ["# A cool tool\n"] =
        .ok ["# Name\n", "\n", "foo-bar -  A cool tool\n", "\n",
             "# Description\n", "\n"] ∧
      ("foo-bar -  A cool tool\n" : String) ≠ "foo-bar - A cool tool\n" := by
  exact ⟨rfl, by decide⟩

/-- Claim C4 as amended: for a file foo-bar.md with no Name line whose
first line is the heading, the normalizer emits the Name heading, a
blank line, the line joining the command name and the first line
stripped of surrounding whitespace and then of hash characters (so the
space that followed the heading marker survives, giving two spaces
after the hyphen), a blank line, the Description heading, a blank
line, then the remaining lines unchanged. -/
theorem c4_name_synthesis (rest : List String)
    (hrest : ∀ l ∈ rest, pyStrip l ≠ "# Name") :
    handle_missing_name "foo-bar.md" ("# A cool tool\n" :: rest) =
      .ok (["# Name\n", "\n", "foo-bar -  A cool tool\n", "\n",
            "# Description\n", "\n"] ++ rest) := by
  have hany : (("# A cool tool\n" :: rest).any (fun l => pyStrip l == "# Name")) = false := by
    simp only [List.any_cons, Bool.or_eq_false_iff]
    refine ⟨by decide, ?_⟩
    rw [List.any_eq_false]
    intro x hx
    simpa using hrest x hx
  have htrim : trimLeadingBlank ("# A cool tool\n" :: rest) = "# A cool tool\n" :: rest := rfl
  unfold handle_missing_name
  rw [hany, htrim]
  rfl

/-- Witness for c4_name_synthesis at a concrete document. -/
theorem c4_witness :
    handle_missing_name "foo-bar.md" ["# A cool tool\n", "body\n"] =
      .ok ["# Name\n", "\n", "foo-bar -  A cool tool\n", "\n",
           "# Description\n", "\n", "body\n"] :=
  c4_name_synthesis ["body\n"] (by decide)

/- ### Claim C8 -/

/-- Counterexample to claim C8 as stated: on the empty line sequence
one application of the normalizer produces no output at all (the
first-line access after blank trimming raises), so it does not produce
a Name line. -/
theorem c8_counterexample :
    handle_missing_name "f.md" [] = .error .indexError := rfl

/-- Claim C8 as amended: on every non-empty line sequence the
normalizer succeeds and is idempotent: when a Name line already exists
the input is returned unchanged, and one application always produces a
sequence containing a Name line, which a second application returns
unchanged. -/
theorem c8_idempotent (f : String) (lines : List String) (hne : lines ≠ []) :
    ((∃ l ∈ lines, pyStrip l = "# Name") → handle_missing_name f lines = .ok lines) ∧
      ∃ out, handle_missing_name f lines = .ok out ∧
        handle_missing_name f out = .ok out ∧ ∃ l ∈ out, pyStrip l = "# Name" := by
  by_cases hn : lines.any (fun l => pyStrip l == "# Name") = true
  · have h1 : handle_missing_name f lines = .ok lines := by
      unfold handle_missing_name
      rw [hn]
      rfl
    refine ⟨fun _ => h1, lines, h1, h1, ?_⟩
    rw [List.any_eq_true] at hn
    obtain ⟨l, hl, he⟩ := hn
    exact ⟨l, hl, by simpa using he⟩
  · constructor
    · intro ⟨l, hl, he⟩
      exact absurd (List.any_eq_true.mpr ⟨l, hl, by simpa using he⟩) hn
    · have hb : lines.any (fun l => pyStrip l == "# Name") = false := by
        simpa using hn
      obtain ⟨l0, restLines, htr⟩ :
          ∃ a b, trimLeadingBlank lines = a :: b := by
        cases htl : trimLeadingBlank lines with
        | nil => exact absurd htl (trimLeadingBlank_ne_nil lines hne)
        | cons a b => exact ⟨a, b, rfl⟩
      have h1 : handle_missing_name f lines =
          .ok (["# Name" ++ pyLinesep, pyLinesep,
                pySplitextRoot (pyBasename f) ++ " - " ++
                  pyStripChar '#' (pyStrip l0) ++ pyLinesep,
                pyLinesep, "# Description" ++ pyLinesep, pyLinesep] ++ restLines) := by
        unfold handle_missing_name
        rw [hb, htr]
        rfl
      refine ⟨_, h1, ?_, ?_⟩
      · unfold handle_missing_name
        have : ((["# Name" ++ pyLinesep, pyLinesep,
                pySplitextRoot (pyBasename f) ++ " - " ++
                  pyStripChar '#' (pyStrip l0) ++ pyLinesep,
                pyLinesep, "# Description" ++ pyLinesep, pyLinesep] ++ restLines).any
              (fun l => pyStrip l == "# Name")) = true := by
          simp only [List.any_append, List.any_cons, Bool.or_eq_true]
          left; left; decide
        rw [this]
        rfl
      · exact ⟨"# Name" ++ pyLinesep, by simp, by decide⟩

/- ### Claim C3 -/

theorem walkFail_error_of_include (cs : List Inline) (post : List Block) :
    ∀ pre : List Block, ∃ e, walkFail (pre ++ .Para (.Str "[!INCLUDE" :: cs) :: post) =
      .error e := by
  intro pre
  induction pre with
  | nil =>
    exact ⟨.foundInclude, by simp [walkFail, fail_on_includes, checkParaHead,
      Bind.bind, Except.bind]⟩
  | cons b pre ih =>
    obtain ⟨e, he⟩ := ih
    cases hb : fail_on_includes b with
    | error e' => exact ⟨e', by simp [walkFail, hb, Bind.bind, Except.bind]⟩
    | ok u => exact ⟨e, by simp [walkFail, hb, he, Bind.bind, Except.bind]⟩

/-- Counterexample to claim C3 as stated: in the legacy profile a
paragraph opening with the literal inclusion marker is silently
rewritten to a paragraph holding one empty string: the chain succeeds
instead of failing fatally. -/
theorem c3_counterexample :
    legacyChain [.Para [.Str "[!INCLUDE"]] = .ok [.Para [.Str ""]] ∧
      filterChain [.Para [.Str "[!INCLUDE"]] = .error .foundInclude := ⟨rfl, rfl⟩

/-- Claim C3 as amended: in the current (extended) profile the Filter
Chain fails fatally on any document containing a paragraph whose first
inline element is the literal inclusion marker string; the legacy
profile instead silently replaces such a paragraph with one holding a
single empty string. -/
theorem c3_reject_unresolved_include :
    (∀ (pre post : List Block) (cs : List Inline), ∃ e,
        filterChain (pre ++ .Para (.Str "[!INCLUDE" :: cs) :: post) = .error e) ∧
      ∀ cs : List Inline,
        remove_includes (.Para (.Str "[!INCLUDE" :: cs)) = .ok (.Para [.Str ""]) := by
  constructor
  · intro pre post cs
    obtain ⟨e, he⟩ := walkFail_error_of_include cs post pre
    exact ⟨e, by simp [filterChain, he, Bind.bind, Except.bind]⟩
  · intro cs
    simp [remove_includes]

/- ### Claim C7 -/

theorem gitRootLoop_never_ok (fs : FS) (hno : ∀ d, fs.isDir d = false) :
    ∀ (fuel : Nat) (dir r : String), gitRootLoop fs fuel dir ≠ .ok r := by
  intro fuel
  induction fuel with
  | zero => intro dir r h; simp [gitRootLoop] at h
  | succ n ih =>
    intro dir r h
    rw [gitRootLoop, hno, if_neg (by simp)] at h
    by_cases hroot : pyAbspath (pyJoinPath dir "..") = "/"
    · rw [if_pos hroot] at h; simp at h
    · rw [if_neg hroot] at h
      exact ih _ r h

/-- Claim C7: a repository-rooted inclusion path is read relative to
the nearest ancestor directory holding a .git marker (here, the
document /repo/docs/a.md with marker at /repo/.git reads
/repo/shared/b.md, whose contents are returned), and when the upward
search exhausts the filesystem without finding a marker, the root
search never succeeds (resolution fails fatally). -/
theorem c7_repo_root_resolution :
    (∀ (fs : FS) (fuel : Nat) (B : List String),
        fs.isDir "/repo/docs/.git" = false → fs.isDir "/repo/.git" = true →
        fs.files "/repo/shared/b.md" = some B → B ≠ [] →
        B.head? ≠ some frontDelim → (∀ l ∈ B, containsMarker l = false) →
        read_lines_document_file fs (fuel + 2) "/repo/docs/a.md"
          ["[!INCLUDE [x](~/shared/b.md)]\n"] = .ok B) ∧
      ∀ fs : FS, (∀ d, fs.isDir d = false) →
        ∀ (fuel : Nat) (file r : String), git_root fs fuel file ≠ .ok r := by
  constructor
  · intro fs fuel B hd1 hd2 hfile hne hhd hmf
    have hg : git_root fs (fuel + 2) "/repo/docs/a.md" = .ok "/repo" := by
      show gitRootLoop fs (fuel + 1 + 1) (pyDirname "/repo/docs/a.md") = .ok "/repo"
      have e0 : pyDirname "/repo/docs/a.md" = "/repo/docs" := rfl
      rw [e0, gitRootLoop]
      have e1 : pyJoinPath "/repo/docs" ".git" = "/repo/docs/.git" := rfl
      rw [e1, hd1, if_neg (by simp)]
      have e2 : pyAbspath (pyJoinPath "/repo/docs" "..") = "/repo" := rfl
      rw [e2, if_neg (by decide)]
      cases fuel with
      | zero =>
        rw [gitRootLoop]
        have e3 : pyJoinPath "/repo" ".git" = "/repo/.git" := rfl
        rw [e3, hd2, if_pos rfl]
      | succ m =>
        rw [gitRootLoop]
        have e3 : pyJoinPath "/repo" ".git" = "/repo/.git" := rfl
        rw [e3, hd2, if_pos rfl]
    rw [read_eq_proc fs (fuel + 1) _ _ (by simp) (by decide)]
    rw [show (["[!INCLUDE [x](~/shared/b.md)]\n"] : List String) =
      "[!INCLUDE [x](~/shared/b.md)]\n" :: [] from rfl]
    simp only [procLines, show containsMarker "[!INCLUDE [x](~/shared/b.md)]\n" = true
        from rfl, if_true,
      show searchInclude "[!INCLUDE [x](~/shared/b.md)]\n" = some "~/shared/b.md" from rfl,
      show pyStartsWith "~/" "~/shared/b.md" = true from rfl]
    rw [show (fuel + 1 + 1) = fuel + 2 from rfl, hg]
    simp only [Except.map, Bind.bind, Except.bind]
    rw [show pyJoinPath ("/repo" ++ "/") (pyDropStr 2 "~/shared/b.md") =
      "/repo/shared/b.md" from rfl, hfile]
    have hr : read_lines_document_file fs (fuel + 1) "/repo/shared/b.md" B = .ok B :=
      read_plain fs fuel "/repo/shared/b.md" B hne hhd hmf
    simp [hr]
  · intro fs hno fuel file r
    exact gitRootLoop_never_ok fs hno fuel (pyDirname file) r

/-- Witness for c7_repo_root_resolution: the concrete repository
layout of the claim, and a marker-free filesystem. -/
theorem c7_witness :
    read_lines_document_file fsRepo 5 "/repo/docs/a.md"
        ["[!INCLUDE [x](~/shared/b.md)]\n"] = .ok ["b\n"] ∧
      git_root fs0 5 "/x/y.md" ≠ .ok "/x" := by
  constructor
  · exact (c7_repo_root_resolution.1 fsRepo 3 ["b\n"] rfl rfl rfl (by decide)
      (by decide) (by decide))
  · exact c7_repo_root_resolution.2 fs0 (fun d => rfl) 5 "/x/y.md" "/x"

/- ### Claim C1 -/

/-- Counterexample to claim C1 as stated: a root document that opens
with a front-matter block loses those lines, although they are
non-directive lines of the root: the resolver output is the splice
without the metadata lines, not the root lines with only the directive
line replaced. -/
theorem c1_counterexample :
    read_lines_document_file fsNestedFM 5 "/d/R.md"
        ["---\n", "m\n", "---\n", "r1\n", "[!INCLUDE [a](A.md)]\n"] =
      .ok ["r1\n", "a1\n", "b1\n", "a2\n"] ∧
      (["r1\n", "a1\n", "b1\n", "a2\n"] : List String) ≠
        ["---\n", "m\n", "---\n", "r1\n", "a1\n", "b1\n", "a2\n"] := by
  exact ⟨rfl, by decide⟩

/-- Claim C1 as amended: for a root document containing an inclusion
directive for file A, where A contains an inclusion directive for file
B, provided none of the three documents opens with the front-matter
delimiter (a leading metadata block is deleted from the output), the
directive paths are relative, the surrounding lines carry no marker
and B is a non-empty directive-free document, the resolver output
equals the root lines with the directive line replaced by A fully
resolved, which in turn has its directive line replaced by B resolved
lines, all other lines kept unchanged and in order at every level. -/
theorem c1_recursive_flattening (fs : FS) (fuel : Nat) (pR relA relB dirA dirB : String)
    (preR postR preA postA B out : List String)
    (hmA : containsMarker dirA = true) (hsA : searchInclude dirA = some relA)
    (htA : pyStartsWith "~/" relA = false)
    (hmB : containsMarker dirB = true) (hsB : searchInclude dirB = some relB)
    (htB : pyStartsWith "~/" relB = false)
    (hfA : fs.files (pyJoinPath (pyDirname pR) relA) = some (preA ++ dirB :: postA))
    (hfB : fs.files (pyJoinPath (pyDirname (pyJoinPath (pyDirname pR) relA)) relB) = some B)
    (hpreR : ∀ l ∈ preR, containsMarker l = false)
    (hpostR : ∀ l ∈ postR, containsMarker l = false)
    (hpreA : ∀ l ∈ preA, containsMarker l = false)
    (hpostA : ∀ l ∈ postA, containsMarker l = false)
    (hB : ∀ l ∈ B, containsMarker l = false)
    (hdR : (preR ++ dirA :: postR).head? ≠ some frontDelim)
    (hdA : (preA ++ dirB :: postA).head? ≠ some frontDelim)
    (hdB : B.head? ≠ some frontDelim) (hneB : B ≠ [])
    (h : read_lines_document_file fs fuel pR (preR ++ dirA :: postR) = .ok out) :
    out = preR ++ preA ++ B ++ postA ++ postR := by
  match fuel with
  | 0 => simp [read_lines_document_file] at h
  | n + 1 =>
    rw [read_eq_proc fs n pR _ (by simp) hdR] at h
    rw [procLines_append_plain fs _ (n + 1) pR preR (dirA :: postR) hpreR] at h
    rw [procLines_cons_inc fs _ (n + 1) pR dirA relA postR _ hmA hsA htA hfA] at h
    rw [exceptMapOk] at h
    obtain ⟨a, hdoA, hout⟩ := h
    rw [exceptBindOk] at hdoA
    obtain ⟨sub, hreadA, hdoA2⟩ := hdoA
    rw [exceptBindOk] at hdoA2
    obtain ⟨rest, hrestR, hokA⟩ := hdoA2
    rw [procLines_plain fs _ (n + 1) pR postR hpostR] at hrestR
    match n, hreadA with
    | 0, hreadA => simp [read_lines_document_file] at hreadA
    | m + 1, hreadA =>
      rw [read_eq_proc fs m _ _ (by simp) hdA] at hreadA
      rw [procLines_append_plain fs _ (m + 1) _ preA (dirB :: postA) hpreA] at hreadA
      rw [procLines_cons_inc fs _ (m + 1) _ dirB relB postA _ hmB hsB htB hfB] at hreadA
      rw [exceptMapOk] at hreadA
      obtain ⟨a2, hdoB, hsubEq⟩ := hreadA
      rw [exceptBindOk] at hdoB
      obtain ⟨sub2, hreadB, hdoB2⟩ := hdoB
      rw [exceptBindOk] at hdoB2
      obtain ⟨rest2, hrestA, hokB⟩ := hdoB2
      rw [procLines_plain fs _ (m + 1) _ postA hpostA] at hrestA
      have hBeq : sub2 = B := by
        match m, hreadB with
        | 0, hreadB => simp [read_lines_document_file] at hreadB
        | k + 1, hreadB =>
          rw [read_plain fs k _ B hneB hdB hB] at hreadB
          simpa using hreadB.symm
      simp only [Except.ok.injEq] at hokA hokB hrestR hrestA
      subst hout hokA hsubEq hokB hBeq
      subst hrestR hrestA
      simp [List.append_assoc]

/-- Witness for c1_recursive_flattening on the nested three-file
filesystem. -/
theorem c1_witness :
    read_lines_document_file fsNested 5 "/d/R.md"
        ["r1\n", "[!INCLUDE [a](A.md)]\n", "r2\n"] =
      .ok ["r1\n", "a1\n", "b1\n", "b2\n", "a2\n", "r2\n"] := by
  have h : read_lines_document_file fsNested 5 "/d/R.md"
      ["r1\n", "[!INCLUDE [a](A.md)]\n", "r2\n"] =
      .ok ["r1\n", "a1\n", "b1\n", "b2\n", "a2\n", "r2\n"] := rfl
  have e := c1_recursive_flattening fsNested 5 "/d/R.md" "A.md" "B.md"
    "[!INCLUDE [a](A.md)]\n" "[!INCLUDE [b](B.md)]\n"
    ["r1\n"] ["r2\n"] ["a1\n"] ["a2\n"] ["b1\n", "b2\n"]
    ["r1\n", "a1\n", "b1\n", "b2\n", "a2\n", "r2\n"]
    (by decide) (by decide) (by decide) (by decide) (by decide) (by decide)
    rfl rfl (by decide) (by decide) (by decide) (by decide) (by decide)
    (by decide) (by decide) (by decide) (by decide) h
  rw [h, e]

/-- Witness for c8_idempotent at a concrete document. -/
theorem c8_witness :
    ∃ out, handle_missing_name "f.md" ["# Title\n"] = .ok out ∧
      handle_missing_name "f.md" out = .ok out ∧ ∃ l ∈ out, pyStrip l = "# Name" :=
  (c8_idempotent "f.md" ["# Title\n"] (by decide)).2

/- ### Character-level lemmas for the case conversions -/

theorem charToNat_inj {c d : Char} (h : c.toNat = d.toNat) : c = d :=
  Char.ext (UInt32.toNat.inj h)

theorem charOfNat_toNat {m : Nat} (h : m.isValidChar) : (Char.ofNat m).toNat = m := by
  rw [Char.ofNat, dif_pos h]; rfl

theorem pyUpperChar_toNat_of_lower {c : Char} (h : 97 ≤ c.toNat ∧ c.toNat ≤ 122) :
    (pyUpperChar c).toNat = c.toNat - 32 := by
  unfold pyUpperChar
  rw [if_pos h]
  exact charOfNat_toNat (Or.inl (by omega))

theorem pyLowerChar_toNat_of_upper {c : Char} (h : 65 ≤ c.toNat ∧ c.toNat ≤ 90) :
    (pyLowerChar c).toNat = c.toNat + 32 := by
  unfold pyLowerChar
  rw [if_pos h]
  exact charOfNat_toNat (Or.inl (by omega))

theorem pyLowerChar_pyUpperChar (c : Char) : pyLowerChar (pyUpperChar c) = pyLowerChar c := by
  by_cases h : 97 ≤ c.toNat ∧ c.toNat ≤ 122
  · have hu := pyUpperChar_toNat_of_lower h
    have hl : (pyLowerChar (pyUpperChar c)).toNat = c.toNat := by
      rw [pyLowerChar_toNat_of_upper (by omega)]
      omega
    have hr : pyLowerChar c = c := by
      unfold pyLowerChar
      rw [if_neg (by omega)]
    rw [hr]
    exact charToNat_inj hl
  · unfold pyUpperChar
    rw [if_neg h]

theorem pyUpperChar_idem (c : Char) : pyUpperChar (pyUpperChar c) = pyUpperChar c := by
  by_cases h : 97 ≤ c.toNat ∧ c.toNat ≤ 122
  · have hu := pyUpperChar_toNat_of_lower h
    conv_lhs => rw [pyUpperChar]
    rw [if_neg (by omega)]
  · conv_lhs => rw [show pyUpperChar c = c by unfold pyUpperChar; rw [if_neg h]]

theorem pyUpperChar_eq_lbracket {c : Char} (h : pyUpperChar c = '[') : c = '[' := by
  by_cases hc : 97 ≤ c.toNat ∧ c.toNat ≤ 122
  · exfalso
    have := pyUpperChar_toNat_of_lower hc
    rw [h] at this
    have hb : ('[' : Char).toNat = 91 := rfl
    omega
  · unfold pyUpperChar at h
    rwa [if_neg hc] at h

theorem pyLowerChar_eq_lbracket {c : Char} (h : pyLowerChar c = '[') : c = '[' := by
  by_cases hc : 65 ≤ c.toNat ∧ c.toNat ≤ 90
  · exfalso
    have := pyLowerChar_toNat_of_upper hc
    rw [h] at this
    have hb : ('[' : Char).toNat = 91 := rfl
    omega
  · unfold pyLowerChar at h
    rwa [if_neg hc] at h

theorem pyLowerChar_eq_space {c : Char} (h : pyLowerChar c = ' ') : c = ' ' := by
  by_cases hc : 65 ≤ c.toNat ∧ c.toNat ≤ 90
  · exfalso
    have := pyLowerChar_toNat_of_upper hc
    rw [h] at this
    have hb : (' ' : Char).toNat = 32 := rfl
    omega
  · unfold pyLowerChar at h
    rwa [if_neg hc] at h

/- ### String-level lemmas for the case conversions -/

theorem mk_append (l1 l2 : List Char) :
    String.mk l1 ++ String.mk l2 = String.mk (l1 ++ l2) := rfl

theorem pyLower_pyUpper (s : String) : pyLower (pyUpper s) = pyLower s := by
  unfold pyLower pyUpper
  simp only [List.map_map]
  congr 1
  exact List.map_congr_left (fun c _ => pyLowerChar_pyUpperChar c)

theorem pyUpper_idem (s : String) : pyUpper (pyUpper s) = pyUpper s := by
  unfold pyUpper
  simp only [List.map_map]
  congr 1
  exact List.map_congr_left (fun c _ => pyUpperChar_idem c)

theorem pyUpper_append (a b : String) : pyUpper (a ++ b) = pyUpper a ++ pyUpper b := by
  unfold pyUpper
  rw [mk_append]
  congr 1
  exact List.map_append pyUpperChar a.data b.data

theorem pyUpper_space : pyUpper " " = " " := rfl

theorem pyJoin_map_upper (parts : List String) :
    pyJoin " " (parts.map pyUpper) = pyUpper (pyJoin " " parts) := by
  match parts with
  | [] => rfl
  | [x] => rfl
  | x :: y :: xs =>
    show pyUpper x ++ " " ++ pyJoin " " (pyUpper y :: xs.map pyUpper) = _
    have ih := pyJoin_map_upper (y :: xs)
    show pyUpper x ++ " " ++ pyJoin " " ((y :: xs).map pyUpper) = _
    rw [ih]
    show _ = pyUpper (x ++ " " ++ pyJoin " " (y :: xs))
    rw [pyUpper_append, pyUpper_append, pyUpper_space]

/- ### strParts and marker-replacement lemmas -/

/-- The admonition replacement restricted to the string level. -/
def remStr (s : String) : String := if isAdmonition s then "" else s

theorem strParts_map_upperStr (cs : List Inline) :
    strParts (cs.map upperStr) = (strParts cs).map pyUpper := by
  induction cs with
  | nil => rfl
  | cons i cs ih => cases i <;> simp only [List.map_cons, upperStr, strParts, ih, List.map]

theorem remInlines_eq_map (cs : List Inline) : remInlines cs = cs.map remInline := by
  induction cs with
  | nil => rfl
  | cons i cs ih => simp only [remInlines, ih, List.map]

theorem strParts_remInlines (cs : List Inline) :
    strParts (remInlines cs) = (strParts cs).map remStr := by
  induction cs with
  | nil => rfl
  | cons i cs ih =>
    cases i <;>
      simp only [remInlines, remInline, strParts, ih, List.map, remStr]
    split <;> simp [strParts, ih]

theorem headerText_map_upperStr (cs : List Inline) :
    headerText (cs.map upperStr) = headerText cs := by
  unfold headerText
  rw [strParts_map_upperStr, pyJoin_map_upper, pyLower_pyUpper]

theorem isAdmonition_has_lbracket {s : String} (h : isAdmonition s = true) :
    '[' ∈ s.data := by
  unfold isAdmonition at h
  rw [Bool.or_eq_true, beq_iff_eq, beq_iff_eq] at h
  cases h with
  | inl h => rw [h]; decide
  | inr h => rw [h]; decide

theorem mem_pyJoin_data (sep : String) {s : String} {c : Char} (hc : c ∈ s.data) :
    ∀ parts : List String, s ∈ parts → c ∈ (pyJoin sep parts).data := by
  intro parts
  induction parts with
  | nil => intro h; simp at h
  | cons x rest ih =>
    intro h
    cases rest with
    | nil =>
      have hx : s = x := by simpa using h
      subst hx
      exact hc
    | cons y xs =>
      rcases List.mem_cons.mp h with hx | h2
      · subst hx
        show c ∈ (s ++ sep ++ pyJoin sep (y :: xs)).data
        rw [String.data_append, String.data_append]
        exact List.mem_append_left _ (List.mem_append_left _ hc)
      · show c ∈ (x ++ sep ++ pyJoin sep (y :: xs)).data
        rw [String.data_append]
        exact List.mem_append_right _ (ih h2)

theorem lbracket_mem_headerText {cs : List Inline}
    (h : ∃ s ∈ strParts cs, isAdmonition s = true) :
    '[' ∈ (headerText cs).data := by
  obtain ⟨s, hs, hm⟩ := h
  have h1 : '[' ∈ (pyJoin " " (strParts cs)).data :=
    mem_pyJoin_data " " (isAdmonition_has_lbracket hm) (strParts cs) hs
  unfold headerText pyLower
  show '[' ∈ (pyJoin " " (strParts cs)).data.map pyLowerChar
  have : '[' = pyLowerChar '[' := rfl
  rw [this]
  exact List.mem_map_of_mem pyLowerChar h1

/- ### The bad-shape predicate on joined header text -/

/-- A character list that cannot be one of the recognized section
names: empty, starting or ending with a space, or containing two
adjacent spaces (shapes produced by joining over a replaced-out
marker). -/
def BadShape (l : List Char) : Prop :=
  l = [] ∨ [' '] <+: l ∨ [' '] <:+ l ∨ [' ', ' '] <:+: l

instance : DecidablePred BadShape := fun l => by unfold BadShape; infer_instance

theorem badShape_extend (m : List Char) {l : List Char} (h : BadShape l) :
    BadShape (m ++ ' ' :: l) := by
  rcases h with rfl | ⟨t, ht⟩ | ⟨t, ht⟩ | ⟨s, t, hst⟩
  · exact Or.inr (Or.inr (Or.inl ⟨m, rfl⟩))
  · refine Or.inr (Or.inr (Or.inr ⟨m, t, ?_⟩))
    rw [← ht]
    simp
  · refine Or.inr (Or.inr (Or.inl ⟨m ++ ' ' :: t, ?_⟩))
    rw [← ht]
    simp
  · refine Or.inr (Or.inr (Or.inr ⟨m ++ ' ' :: s, t, ?_⟩))
    rw [← hst]
    simp

theorem badShape_map {f : Char → Char} (hf : f ' ' = ' ') {l : List Char}
    (h : BadShape l) : BadShape (l.map f) := by
  rcases h with rfl | ⟨t, ht⟩ | ⟨t, ht⟩ | ⟨s, t, hst⟩
  · exact Or.inl rfl
  · refine Or.inr (Or.inl ⟨t.map f, ?_⟩)
    rw [← ht]
    simp [hf]
  · refine Or.inr (Or.inr (Or.inl ⟨t.map f, ?_⟩))
    rw [← ht]
    simp [hf]
  · refine Or.inr (Or.inr (Or.inr ⟨s.map f, t.map f, ?_⟩))
    rw [← hst]
    simp [hf]

theorem badShape_join_of_empty_mem :
    ∀ parts : List String, "" ∈ parts → BadShape (pyJoin " " parts).data := by
  intro parts
  induction parts with
  | nil => intro h; simp at h
  | cons x rest ih =>
    intro h
    cases rest with
    | nil =>
      have hx : ("" : String) = x := by simpa using h
      rw [← hx]
      exact Or.inl rfl
    | cons y xs =>
      rcases List.mem_cons.mp h with hx | h2
      · rw [← hx]
        refine Or.inr (Or.inl ⟨(pyJoin " " (y :: xs)).data, ?_⟩)
        show ' ' :: (pyJoin " " (y :: xs)).data = ("" ++ " " ++ pyJoin " " (y :: xs)).data
        rw [String.data_append, String.data_append]
        rfl
      · have hdata : (x ++ " " ++ pyJoin " " (y :: xs)).data =
            x.data ++ ' ' :: (pyJoin " " (y :: xs)).data := by
          rw [String.data_append, String.data_append]
          simp
        show BadShape (x ++ " " ++ pyJoin " " (y :: xs)).data
        rw [hdata]
        exact badShape_extend x.data (ih h2)

/- ### Stability of recognized-section membership under marker removal -/

/-- A good target set: section names are nonempty, free of bracket
characters, and free of leading, trailing, or doubled spaces. -/
def goodSet (L : List String) : Prop :=
  ∀ t ∈ L, ¬ BadShape t.data ∧ '[' ∉ t.data

theorem goodSet_extended : goodSet extendedSections := by unfold goodSet BadShape; decide

theorem goodSet_legacy : goodSet legacySections := by unfold goodSet BadShape; decide

theorem goodSet_name : goodSet ["name"] := by unfold goodSet BadShape; decide

theorem contains_eq_false_of_lbracket {L : List String} (hL : goodSet L)
    {x : String} (hx : '[' ∈ x.data) : L.contains x = false := by
  by_contra hc
  rw [Bool.not_eq_false, List.contains_iff_exists_mem_beq] at hc
  obtain ⟨t, ht, he⟩ := hc
  rw [beq_iff_eq] at he
  exact (hL t ht).2 (he ▸ hx)

theorem contains_eq_false_of_badShape {L : List String} (hL : goodSet L)
    {x : String} (hx : BadShape x.data) : L.contains x = false := by
  by_contra hc
  rw [Bool.not_eq_false, List.contains_iff_exists_mem_beq] at hc
  obtain ⟨t, ht, he⟩ := hc
  rw [beq_iff_eq] at he
  exact (hL t ht).1 (he ▸ hx)

theorem badShape_headerText_remInlines {cs : List Inline}
    (h : ∃ s ∈ strParts cs, isAdmonition s = true) :
    BadShape (headerText (remInlines cs)).data := by
  obtain ⟨s, hs, hm⟩ := h
  have hmem : "" ∈ strParts (remInlines cs) := by
    rw [strParts_remInlines]
    have : remStr s = "" := by unfold remStr; rw [if_pos hm]
    exact this ▸ List.mem_map_of_mem remStr hs
  have hbad := badShape_join_of_empty_mem _ hmem
  unfold headerText pyLower
  show BadShape ((pyJoin " " (strParts (remInlines cs))).data.map pyLowerChar)
  exact badShape_map rfl hbad

/-- Marker removal does not change whether a header's flattened text
belongs to a good set of section names: if no marker occurs among the
text elements nothing changes, and if one does, the old text carries a
bracket character while the new text carries a join over an empty
piece, and neither shape occurs in a good set. -/
theorem contains_headerText_remInlines {L : List String} (hL : goodSet L)
    (cs : List Inline) :
    L.contains (headerText (remInlines cs)) = L.contains (headerText cs) := by
  by_cases hm : ∀ s ∈ strParts cs, isAdmonition s = false
  · have : strParts (remInlines cs) = strParts cs := by
      rw [strParts_remInlines]
      conv_rhs => rw [← List.map_id (strParts cs)]
      refine List.map_congr_left (fun s hs => ?_)
      show remStr s = s
      unfold remStr
      rw [if_neg (by simp [hm s hs])]
    unfold headerText
    rw [this]
  · push_neg at hm
    obtain ⟨s, hs, hne⟩ := hm
    have hmark : isAdmonition s = true := by simpa using hne
    rw [contains_eq_false_of_lbracket hL (lbracket_mem_headerText ⟨s, hs, hmark⟩)]
    rw [contains_eq_false_of_badShape hL (badShape_headerText_remInlines ⟨s, hs, hmark⟩)]

/-- The single-name version used by the stateful pass flag. -/
theorem headerText_remInlines_name (cs : List Inline) :
    (headerText (remInlines cs) == "name") = (headerText cs == "name") := by
  have h := contains_headerText_remInlines goodSet_name cs
  simpa [List.contains] using h

/- ### Bracket-freeness of recognized headers -/

theorem strParts_no_lbracket {L : List String} (hL : goodSet L) {cs : List Inline}
    (hc : L.contains (headerText cs) = true) :
    ∀ s ∈ strParts cs, '[' ∉ s.data := by
  intro s hs hmem
  have h1 : '[' ∈ (pyJoin " " (strParts cs)).data :=
    mem_pyJoin_data " " hmem (strParts cs) hs
  have h2 : '[' ∈ (headerText cs).data := by
    unfold headerText pyLower
    show '[' ∈ (pyJoin " " (strParts cs)).data.map pyLowerChar
    have he : '[' = pyLowerChar '[' := rfl
    rw [he]
    exact List.mem_map_of_mem pyLowerChar h1
  rw [contains_eq_false_of_lbracket hL h2] at hc
  exact Bool.false_ne_true hc

theorem pyUpper_no_lbracket {s : String} (h : '[' ∉ s.data) :
    '[' ∉ (pyUpper s).data := by
  intro hmem
  unfold pyUpper at hmem
  rw [show (String.mk (s.data.map pyUpperChar)).data = s.data.map pyUpperChar from rfl,
    List.mem_map] at hmem
  obtain ⟨c, hc, he⟩ := hmem
  exact h ((pyUpperChar_eq_lbracket he) ▸ hc)

theorem isAdmonition_eq_false_of_no_lbracket {s : String} (h : '[' ∉ s.data) :
    isAdmonition s = false := by
  by_contra hb
  rw [Bool.not_eq_false] at hb
  exact h (isAdmonition_has_lbracket hb)

theorem remInline_str_of_no_lbracket {s : String} (h : '[' ∉ s.data) :
    remInline (.Str s) = .Str s := by
  unfold remInline
  rw [isAdmonition_eq_false_of_no_lbracket h]
  rfl

/-- With bracket-free text elements, uppercasing is transparent to
marker removal: marker removal and a second uppercasing leave the
promoted content fixed. -/
theorem map_upperStr_remInlines_fix {cs : List Inline}
    (htop : ∀ s ∈ strParts cs, '[' ∉ s.data) :
    (remInlines (cs.map upperStr)).map upperStr = remInlines (cs.map upperStr) := by
  induction cs with
  | nil => rfl
  | cons i cs ih =>
    have htail := ih (fun s hs => htop s (by cases i <;> simp [strParts, hs]))
    cases i with
    | Str s =>
      have hnb : '[' ∉ (pyUpper s).data :=
        pyUpper_no_lbracket (htop s (by simp [strParts]))
      simp only [List.map_cons, upperStr, remInlines,
        remInline_str_of_no_lbracket hnb, htail, List.map]
      rw [pyUpper_idem]
    | Code attr s => simp only [List.map_cons, upperStr, remInlines, remInline, htail, List.map]
    | Space => simp only [List.map_cons, upperStr, remInlines, remInline, htail, List.map]
    | Link attr label tgt =>
      simp only [List.map_cons, upperStr, remInlines, remInline, htail, List.map]

theorem strParts_remInlines_of_no_lbracket {cs : List Inline}
    (htop : ∀ s ∈ strParts cs, '[' ∉ s.data) :
    strParts (remInlines cs) = strParts cs := by
  rw [strParts_remInlines]
  conv_rhs => rw [← List.map_id (strParts cs)]
  refine List.map_congr_left (fun s hs => ?_)
  show remStr s = s
  unfold remStr
  rw [isAdmonition_eq_false_of_no_lbracket (htop s hs)]
  rfl

/-- The promotion pass leaves marker-removed promoted output fixed. -/
theorem promote_rem_promote {P : List String} (hP : goodSet P) (b : Block) :
    promote_and_capitalize P (remBlock (promote_and_capitalize P b)) =
      remBlock (promote_and_capitalize P b) := by
  cases b with
  | Para cs => rfl
  | Header lv attr cs =>
    by_cases hc : P.contains (headerText cs) = true
    · have hrw : promote_and_capitalize P (.Header lv attr cs) =
          .Header 1 attr (cs.map upperStr) := by
        simp only [promote_and_capitalize, hc, if_true]
      rw [hrw]
      show promote_and_capitalize P (.Header 1 attr (remInlines (cs.map upperStr))) = _
      have htop : ∀ s ∈ strParts cs, '[' ∉ s.data := strParts_no_lbracket hP hc
      have htopU : ∀ s ∈ strParts (cs.map upperStr), '[' ∉ s.data := by
        intro s hs
        rw [strParts_map_upperStr, List.mem_map] at hs
        obtain ⟨t, ht, rfl⟩ := hs
        exact pyUpper_no_lbracket (htop t ht)
      have hc2 : P.contains (headerText (remInlines (cs.map upperStr))) = true := by
        unfold headerText
        rw [strParts_remInlines_of_no_lbracket htopU]
        show P.contains (headerText (cs.map upperStr)) = true
        rw [headerText_map_upperStr]
        exact hc
      simp only [promote_and_capitalize, hc2, if_true]
      simp only [remBlock, map_upperStr_remInlines_fix htop]
    · have hcb : P.contains (headerText cs) = false := by simpa using hc
      have hrw : promote_and_capitalize P (.Header lv attr cs) = .Header lv attr cs := by
        simp only [promote_and_capitalize, hcb, Bool.false_eq_true, if_false]
      rw [hrw]
      show promote_and_capitalize P (.Header lv attr (remInlines cs)) = _
      have hc2 : P.contains (headerText (remInlines cs)) = false := by
        rw [contains_headerText_remInlines hP]
        exact hcb
      simp only [promote_and_capitalize, hc2, Bool.false_eq_true, if_false, remBlock]

/- ### Pointwise lemmas for the stateful spacing pass and marker pass -/

theorem pyStartsWith_dotnet_head {s : String} (h : pyStartsWith "dotnet " s = true) :
    ∃ t, s.data = 'd' :: t := by
  unfold pyStartsWith at h
  cases hs : s.data with
  | nil => rw [hs] at h; simp [isPre] at h
  | cons c cs =>
    rw [hs] at h
    have : ('d' == c) = true := by
      have hh : isPre ("dotnet ".data) (c :: cs) = true := h
      rw [show ("dotnet ".data) = 'd' :: "otnet ".data from rfl] at hh
      unfold isPre at hh
      rw [Bool.and_eq_true] at hh
      exact hh.1
    rw [beq_iff_eq] at this
    exact ⟨cs, by rw [← this]⟩

theorem replaceSpaceHyphen_head {s : String} (h : pyStartsWith "dotnet " s = true) :
    ∃ t, (replaceSpaceHyphen s).data = 'd' :: t := by
  obtain ⟨t, ht⟩ := pyStartsWith_dotnet_head h
  refine ⟨t.map (fun c => if c == ' ' then '-' else c), ?_⟩
  unfold replaceSpaceHyphen
  rw [show (String.mk (s.data.map fun c => if c == ' ' then '-' else c)).data =
    s.data.map (fun c => if c == ' ' then '-' else c) from rfl, ht]
  rfl

theorem replaceSpaceHyphen_not_admonition {s : String}
    (h : pyStartsWith "dotnet " s = true) :
    isAdmonition (replaceSpaceHyphen s) = false := by
  obtain ⟨t, ht⟩ := replaceSpaceHyphen_head h
  by_contra hb
  rw [Bool.not_eq_false] at hb
  unfold isAdmonition at hb
  rw [Bool.or_eq_true, beq_iff_eq, beq_iff_eq] at hb
  cases hb with
  | inl he => rw [he] at ht; exact absurd (List.head_eq_of_cons_eq ht) (by decide)
  | inr he => rw [he] at ht; exact absurd (List.head_eq_of_cons_eq ht) (by decide)

theorem fix_rem_fix_inline (i : Inline) :
    fixInline (remInline (fixInline i)) = remInline (fixInline i) := by
  cases i with
  | Str s =>
    show fixInline (remInline (.Str s)) = remInline (.Str s)
    unfold remInline
    split <;> rfl
  | Space => rfl
  | Link attr label tgt => rfl
  | Code attr s =>
    by_cases hd : pyStartsWith "dotnet " s = true
    · show fixInline (remInline (fixInline (.Code attr s))) = remInline (fixInline (.Code attr s))
      simp only [fixInline, hd, if_true]
      simp only [remInline, replaceSpaceHyphen_not_admonition hd, Bool.false_eq_true, if_false]
    · have hdb : pyStartsWith "dotnet " s = false := by simpa using hd
      show fixInline (remInline (fixInline (.Code attr s))) = remInline (fixInline (.Code attr s))
      simp only [fixInline, hdb, Bool.false_eq_true, if_false, remInline]

mutual

theorem remInline_idem : ∀ i : Inline, remInline (remInline i) = remInline i
  | .Str s => by
    by_cases hm : isAdmonition s = true
    · have h1 : remInline (.Str s) = .Str "" := by simp only [remInline, hm, if_true]
      rw [h1]
      show remInline (.Str "") = .Str ""
      simp only [remInline]
      rw [if_neg (by decide)]
    · have hmf : isAdmonition s = false := by simpa using hm
      have h1 : remInline (.Str s) = .Str s := by
        simp only [remInline, hmf, Bool.false_eq_true, if_false]
      rw [h1, h1]
  | .Code attr s => rfl
  | .Space => rfl
  | .Link attr label tgt => by
    show remInline (.Link attr (remInlines label) tgt) = .Link attr (remInlines label) tgt
    unfold remInline
    rw [remInlines_idem label]

theorem remInlines_idem : ∀ cs : List Inline, remInlines (remInlines cs) = remInlines cs
  | [] => rfl
  | i :: is => by
    show remInline (remInline i) :: remInlines (remInlines is) = _
    rw [remInline_idem i, remInlines_idem is]
    rfl

end

theorem remBlock_idem (b : Block) : remBlock (remBlock b) = remBlock b := by
  cases b <;> simp only [remBlock, remInlines_idem]

theorem walkRemove_idem (bs : List Block) : walkRemove (walkRemove bs) = walkRemove bs := by
  unfold walkRemove
  rw [List.map_map]
  exact List.map_congr_left (fun b _ => remBlock_idem b)

/- ### The reject pass as a predicate, and its preservation -/

theorem walkFail_ok_iff (bs u : List Block) :
    walkFail bs = .ok u ↔ u = bs ∧ ∀ b ∈ bs, fail_on_includes b = .ok () := by
  induction bs generalizing u with
  | nil =>
    constructor
    · intro h
      have : u = [] := by simpa [walkFail] using h.symm
      exact ⟨this, by simp⟩
    · intro ⟨h, _⟩
      rw [h]
      rfl
  | cons b bs ih =>
    constructor
    · intro h
      unfold walkFail at h
      rw [exceptBindOk] at h
      obtain ⟨x, hx, h2⟩ := h
      rw [exceptBindOk] at h2
      obtain ⟨rest, hrest, h3⟩ := h2
      obtain ⟨hreq, hall⟩ := (ih rest).mp hrest
      have hu : u = b :: rest := by simpa using h3.symm
      refine ⟨by rw [hu, hreq], ?_⟩
      intro c hc
      rcases List.mem_cons.mp hc with rfl | hc2
      · cases hbc : fail_on_includes c with
        | ok v => rfl
        | error e => rw [hbc] at hx; exact absurd hx (by simp)
      · exact hall c hc2
    · intro ⟨hu, hall⟩
      have hb : fail_on_includes b = .ok () := hall b (by simp)
      have hrest : walkFail bs = .ok bs := (ih bs).mpr ⟨rfl, fun c hc => hall c (by simp [hc])⟩
      unfold walkFail
      rw [hu, hb, hrest]
      rfl

theorem checkParaHead_fixInline {cs : List Inline} (h : checkParaHead cs = .ok ()) :
    checkParaHead (cs.map fixInline) = .ok () := by
  cases cs with
  | nil => exact absurd h (by simp [checkParaHead])
  | cons i rest =>
    cases i with
    | Space => exact absurd h (by simp [checkParaHead])
    | Str s =>
      show checkParaHead (.Str s :: _) = .ok ()
      exact h
    | Link attr label tgt => rfl
    | Code attr s =>
      show checkParaHead (fixInline (.Code attr s) :: _) = .ok ()
      by_cases hd : pyStartsWith "dotnet " s = true
      · simp only [fixInline, hd, if_true]
        have hne : replaceSpaceHyphen s ≠ "[!INCLUDE" := by
          obtain ⟨t, ht⟩ := replaceSpaceHyphen_head hd
          intro he
          rw [he] at ht
          exact absurd (List.head_eq_of_cons_eq ht) (by decide)
        simp only [checkParaHead]
        rw [if_neg hne]
      · have hdb : pyStartsWith "dotnet " s = false := by simpa using hd
        simp only [fixInline, hdb, Bool.false_eq_true, if_false]
        rfl

theorem checkParaHead_remInlines {cs : List Inline} (h : checkParaHead cs = .ok ()) :
    checkParaHead (remInlines cs) = .ok () := by
  cases cs with
  | nil => exact absurd h (by simp [checkParaHead])
  | cons i rest =>
    cases i with
    | Space => exact absurd h (by simp [checkParaHead])
    | Code attr s => rfl
    | Link attr label tgt => rfl
    | Str s =>
      show checkParaHead (remInline (.Str s) :: _) = .ok ()
      by_cases hm : isAdmonition s = true
      · simp only [remInline, hm, if_true]
        simp only [checkParaHead]
        rw [if_neg (by decide)]
      · have hmf : isAdmonition s = false := by simpa using hm
        simp only [remInline, hmf, Bool.false_eq_true, if_false]
        exact h

/- ### Shape facts about single passes -/

theorem promote_para (P : List String) (cs : List Inline) :
    promote_and_capitalize P (.Para cs) = .Para cs := rfl

theorem promote_header_shape (P : List String) (lv : Nat) (attr : Attr) (cs : List Inline) :
    ∃ lv2 cs2, promote_and_capitalize P (.Header lv attr cs) = .Header lv2 attr cs2 := by
  by_cases hc : P.contains (headerText cs) = true
  · exact ⟨1, cs.map upperStr, by simp only [promote_and_capitalize, hc, if_true]⟩
  · have hcb : P.contains (headerText cs) = false := by simpa using hc
    exact ⟨lv, cs, by simp only [promote_and_capitalize, hcb, Bool.false_eq_true, if_false]⟩

theorem walkFixSpace_header (flag : Bool) (lv : Nat) (attr : Attr) (cs : List Inline)
    (bs : List Block) :
    walkFixSpace flag (.Header lv attr cs :: bs) =
      .Header lv attr cs :: walkFixSpace (headerText cs == "name") bs := rfl

theorem walkFixSpace_para (flag : Bool) (cs : List Inline) (bs : List Block) :
    walkFixSpace flag (.Para cs :: bs) =
      (if flag then Block.Para (cs.map fixInline) else .Para cs) :: walkFixSpace flag bs := rfl

theorem map_fix_rem_fix (cs : List Inline) :
    (remInlines (cs.map fixInline)).map fixInline = remInlines (cs.map fixInline) := by
  simp only [remInlines_eq_map, List.map_map, Function.comp]
  exact List.map_congr_left (fun i _ => fix_rem_fix_inline i)

/- ### The promotion pass leaves the chain tail fixed -/

theorem walkPromote_chain_fix {P : List String} (hP : goodSet P) :
    ∀ (bs : List Block) (flag : Bool),
      walkPromote P (walkRemove (walkFixSpace flag (walkPromote P bs))) =
        walkRemove (walkFixSpace flag (walkPromote P bs)) := by
  intro bs
  induction bs with
  | nil => intro flag; rfl
  | cons b bs ih =>
    intro flag
    cases b with
    | Header lv attr cs =>
      obtain ⟨lv2, cs2, hshape⟩ := promote_header_shape P lv attr cs
      have h1 : walkPromote P (.Header lv attr cs :: bs) =
          .Header lv2 attr cs2 :: walkPromote P bs := by
        show promote_and_capitalize P (.Header lv attr cs) :: walkPromote P bs = _
        rw [hshape]
      have hfix : promote_and_capitalize P (remBlock (.Header lv2 attr cs2)) =
          remBlock (.Header lv2 attr cs2) := by
        have hp := promote_rem_promote hP (.Header lv attr cs)
        rwa [hshape] at hp
      rw [h1, walkFixSpace_header]
      show promote_and_capitalize P (remBlock (.Header lv2 attr cs2)) ::
          walkPromote P (walkRemove (walkFixSpace (headerText cs2 == "name")
            (walkPromote P bs))) =
        remBlock (.Header lv2 attr cs2) ::
          walkRemove (walkFixSpace (headerText cs2 == "name") (walkPromote P bs))
      rw [ih (headerText cs2 == "name"), hfix]
    | Para cs =>
      have h1 : walkPromote P (.Para cs :: bs) = .Para cs :: walkPromote P bs := rfl
      rw [h1, walkFixSpace_para]
      cases flag with
      | true =>
        simp only [if_true]
        show promote_and_capitalize P (remBlock (.Para (cs.map fixInline))) ::
            walkPromote P (walkRemove (walkFixSpace true (walkPromote P bs))) =
          remBlock (.Para (cs.map fixInline)) ::
            walkRemove (walkFixSpace true (walkPromote P bs))
        rw [ih true]
        rfl
      | false =>
        simp only [Bool.false_eq_true, if_false]
        show promote_and_capitalize P (remBlock (.Para cs)) ::
            walkPromote P (walkRemove (walkFixSpace false (walkPromote P bs))) =
          remBlock (.Para cs) ::
            walkRemove (walkFixSpace false (walkPromote P bs))
        rw [ih false]
        rfl

/- ### The stateful pass leaves the chain tail fixed -/

theorem walkFixSpace_chain_fix :
    ∀ (bs : List Block) (flag : Bool),
      walkFixSpace flag (walkRemove (walkFixSpace flag bs)) =
        walkRemove (walkFixSpace flag bs) := by
  intro bs
  induction bs with
  | nil => intro flag; rfl
  | cons b bs ih =>
    intro flag
    cases b with
    | Header lv attr cs =>
      rw [walkFixSpace_header]
      show walkFixSpace flag (remBlock (.Header lv attr cs) ::
          walkRemove (walkFixSpace (headerText cs == "name") bs)) = _
      show Block.Header lv attr (remInlines cs) ::
            walkFixSpace (headerText (remInlines cs) == "name")
              (walkRemove (walkFixSpace (headerText cs == "name") bs)) = _
      rw [headerText_remInlines_name, ih (headerText cs == "name")]
      rfl
    | Para cs =>
      rw [walkFixSpace_para]
      cases flag with
      | true =>
        simp only [if_true]
        show walkFixSpace true (.Para (remInlines (cs.map fixInline)) ::
            walkRemove (walkFixSpace true bs)) = _
        rw [walkFixSpace_para, if_pos rfl]
        rw [map_fix_rem_fix, ih true]
        rfl
      | false =>
        simp only [Bool.false_eq_true, if_false]
        show walkFixSpace false (.Para (remInlines cs) ::
            walkRemove (walkFixSpace false bs)) = _
        rw [walkFixSpace_para]
        simp only [Bool.false_eq_true, if_false]
        rw [ih false]
        rfl

/- ### Preservation of the reject-pass predicate through the chain -/

theorem fail_ok_chain {P : List String} {bs : List Block}
    (h : ∀ b ∈ bs, fail_on_includes b = .ok ()) :
    ∀ flag, ∀ b ∈ walkRemove (walkFixSpace flag (walkPromote P bs)),
      fail_on_includes b = .ok () := by
  induction bs with
  | nil => intro flag b hb; simp [walkRemove, walkFixSpace, walkPromote] at hb
  | cons b0 bs ih =>
    intro flag b hb
    have htail := ih (fun c hc => h c (by simp [hc]))
    cases b0 with
    | Header lv attr cs =>
      obtain ⟨lv2, cs2, hshape⟩ := promote_header_shape P lv attr cs
      have h1 : walkPromote P (.Header lv attr cs :: bs) =
          .Header lv2 attr cs2 :: walkPromote P bs := by
        show promote_and_capitalize P (.Header lv attr cs) :: walkPromote P bs = _
        rw [hshape]
      rw [h1, walkFixSpace_header] at hb
      have hb2 : b ∈ remBlock (.Header lv2 attr cs2) ::
          walkRemove (walkFixSpace (headerText cs2 == "name") (walkPromote P bs)) := hb
      rcases List.mem_cons.mp hb2 with rfl | hmem
      · rfl
      · exact htail _ b hmem
    | Para cs =>
      have hcs : checkParaHead cs = .ok () := h (.Para cs) (by simp)
      have h1 : walkPromote P (.Para cs :: bs) = .Para cs :: walkPromote P bs := rfl
      rw [h1, walkFixSpace_para] at hb
      cases flag with
      | true =>
        simp only [if_true] at hb
        have hb2 : b ∈ remBlock (.Para (cs.map fixInline)) ::
            walkRemove (walkFixSpace true (walkPromote P bs)) := hb
        rcases List.mem_cons.mp hb2 with rfl | hmem
        · show checkParaHead (remInlines (cs.map fixInline)) = .ok ()
          exact checkParaHead_remInlines (checkParaHead_fixInline hcs)
        · exact htail _ b hmem
      | false =>
        simp only [Bool.false_eq_true, if_false] at hb
        have hb2 : b ∈ remBlock (.Para cs) ::
            walkRemove (walkFixSpace false (walkPromote P bs)) := hb
        rcases List.mem_cons.mp hb2 with rfl | hmem
        · show checkParaHead (remInlines cs) = .ok ()
          exact checkParaHead_remInlines hcs
        · exact htail _ b hmem

/- ### Preservation of the version-id guard, and demotion as a no-op -/

theorem headerIdOk_chain {P : List String} {bs : List Block}
    (h : ∀ b ∈ bs, headerIdOk b = true) :
    ∀ flag, ∀ b ∈ walkRemove (walkFixSpace flag (walkPromote P bs)),
      headerIdOk b = true := by
  induction bs with
  | nil => intro flag b hb; simp [walkRemove, walkFixSpace, walkPromote] at hb
  | cons b0 bs ih =>
    intro flag b hb
    have htail := ih (fun c hc => h c (by simp [hc]))
    cases b0 with
    | Header lv attr cs =>
      obtain ⟨lv2, cs2, hshape⟩ := promote_header_shape P lv attr cs
      have h1 : walkPromote P (.Header lv attr cs :: bs) =
          .Header lv2 attr cs2 :: walkPromote P bs := by
        show promote_and_capitalize P (.Header lv attr cs) :: walkPromote P bs = _
        rw [hshape]
      rw [h1, walkFixSpace_header] at hb
      have hb2 : b ∈ remBlock (.Header lv2 attr cs2) ::
          walkRemove (walkFixSpace (headerText cs2 == "name") (walkPromote P bs)) := hb
      rcases List.mem_cons.mp hb2 with rfl | hmem
      · have h0 : headerIdOk (.Header lv attr cs) = true := h _ (by simp)
        obtain ⟨id, cls, kvs⟩ := attr
        exact h0
      · exact htail _ b hmem
    | Para cs =>
      have h1 : walkPromote P (.Para cs :: bs) = .Para cs :: walkPromote P bs := rfl
      rw [h1, walkFixSpace_para] at hb
      cases flag with
      | true =>
        simp only [if_true] at hb
        have hb2 : b ∈ remBlock (.Para (cs.map fixInline)) ::
            walkRemove (walkFixSpace true (walkPromote P bs)) := hb
        rcases List.mem_cons.mp hb2 with rfl | hmem
        · rfl
        · exact htail _ b hmem
      | false =>
        simp only [Bool.false_eq_true, if_false] at hb
        have hb2 : b ∈ remBlock (.Para cs) ::
            walkRemove (walkFixSpace false (walkPromote P bs)) := hb
        rcases List.mem_cons.mp hb2 with rfl | hmem
        · rfl
        · exact htail _ b hmem

theorem headerIdOk_promote {P : List String} {b : Block} (h : headerIdOk b = true) :
    headerIdOk (promote_and_capitalize P b) = true := by
  cases b with
  | Para cs => exact h
  | Header lv attr cs =>
    obtain ⟨lv2, cs2, hshape⟩ := promote_header_shape P lv attr cs
    rw [hshape]
    obtain ⟨id, cls, kvs⟩ := attr
    exact h

theorem walkDemote_noop {bs : List Block} (h : ∀ b ∈ bs, headerIdOk b = true) :
    walkDemote bs = .ok bs := by
  induction bs with
  | nil => rfl
  | cons b bs ih =>
    have hb : demote_net_core b = .ok b := by
      cases b with
      | Para cs => rfl
      | Header lv attr cs =>
        obtain ⟨id, cls, kvs⟩ := attr
        have h0 : headerIdOk (.Header lv (id, cls, kvs) cs) = true := h _ (by simp)
        have h1 : pyStartsWith "net-core-" id = false := by
          simpa [headerIdOk] using h0
        simp only [demote_net_core, h1, Bool.false_eq_true, if_false]
    unfold walkDemote
    rw [hb, ih (fun c hc => h c (by simp [hc]))]
    rfl

/- ### Claim C5 -/

/-- Counterexample to claim C5 as stated: the demote-versioned-heading
pass does not leave its own output fixed.  A demoted header keeps the
triggering identifier, so a second chain run fires the demotion again
on content that is no longer a link and crashes: the chain applied to
its own output fails instead of returning it unchanged. -/
theorem c5_counterexample :
    filterChain [hdrNetCore] = .ok [hdrNetCoreDemoted] ∧
      filterChain [hdrNetCoreDemoted] = .error .demoteMalformed := ⟨rfl, rfl⟩

/-- Claim C5 as amended: on documents none of whose header identifiers
carries the version-marker prefix (so the demotion pass does not
fire), the extended-profile Filter Chain is idempotent: applying it to
its own successful output returns that output unchanged. -/
theorem c5_chain_idempotent (bs u : List Block)
    (hnc : ∀ b ∈ bs, headerIdOk b = true)
    (h : filterChain bs = .ok u) : filterChain u = .ok u := by
  unfold filterChain at h
  rw [exceptBindOk] at h
  obtain ⟨b1, hfail, h2⟩ := h
  rw [exceptBindOk] at h2
  obtain ⟨b3, hdem, h3⟩ := h2
  obtain ⟨hb1, hall⟩ := (walkFail_ok_iff bs b1).mp hfail
  subst hb1
  have hnc2 : ∀ b ∈ walkPromote extendedSections b1, headerIdOk b = true := by
    intro b hb
    rw [walkPromote, List.mem_map] at hb
    obtain ⟨c, hc, rfl⟩ := hb
    exact headerIdOk_promote (hnc c hc)
  have hdem2 := walkDemote_noop hnc2
  rw [hdem2] at hdem
  have hb3 : b3 = walkPromote extendedSections b1 := by simpa using hdem.symm
  subst hb3
  have hu : u = walkRemove (walkFixSpace false (walkPromote extendedSections b1)) := by
    simpa using h3.symm
  subst hu
  have hfailU : walkFail
      (walkRemove (walkFixSpace false (walkPromote extendedSections b1))) =
      .ok (walkRemove (walkFixSpace false (walkPromote extendedSections b1))) :=
    (walkFail_ok_iff _ _).mpr ⟨rfl, fail_ok_chain hall false⟩
  have hpromU := walkPromote_chain_fix goodSet_extended b1 false
  have hdemU : walkDemote
      (walkRemove (walkFixSpace false (walkPromote extendedSections b1))) =
      .ok (walkRemove (walkFixSpace false (walkPromote extendedSections b1))) :=
    walkDemote_noop (headerIdOk_chain hnc false)
  have hfixU := walkFixSpace_chain_fix (walkPromote extendedSections b1) false
  have hremU := walkRemove_idem (walkFixSpace false (walkPromote extendedSections b1))
  unfold filterChain
  rw [hfailU]
  show (Except.ok (walkRemove (walkFixSpace false (walkPromote extendedSections b1))) >>=
      fun b1h => walkDemote (walkPromote extendedSections b1h) >>=
        fun b3h => .ok (walkRemove (walkFixSpace false b3h))) = _
  rw [exceptBindOk]
  refine ⟨_, rfl, ?_⟩
  rw [hpromU, hdemU, exceptBindOk]
  refine ⟨_, rfl, ?_⟩
  rw [hfixU, hremU]

/-- Witness for c5_chain_idempotent on a concrete already-normalized
document. -/
theorem c5_witness : filterChain doc5Out = .ok doc5Out :=
  c5_chain_idempotent doc5In doc5Out (by decide) rfl
